import Mathlib

/-!
Shallow embedding of the markdown link / anchor validation engine
(`tests/utils/markdown_link_validator.py`): heading slugger, anchor
extraction, link extraction, link resolution and the validator proper,
together with theorems checking the specification's claims.

Strings are modelled as Lean `String`/`List Char`; the embedding is an
ASCII model of the Python string operations (Python's `\w`, `\s`,
`str.lower` act on Unicode, but every claim concerns ASCII text).
Regular-expression substitutions are translated as direct left-to-right
scanners with the same leftmost, non-overlapping semantics; each scanner
advances one character on a failed match attempt, exactly as `re.sub`
does.  Scanners recurse on explicit fuel initialised to the input
length, which every step strictly decreases along with the input.
-/

namespace MLV

/-- Python whitespace class (`\s`, `str.strip`, `str.split`), ASCII part:
space, tab, newline, carriage return, vertical tab, form feed. -/
def isPyWS (c : Char) : Bool :=
  c = ' ' || c = '\t' || c = '\n' || c = '\r' || c = '\x0b' || c = '\x0c'

/-- Python `\w` word character, ASCII part: letters, digits, underscore. -/
def isWordChar (c : Char) : Bool :=
  c.isAlphanum || c = '_'

/-- Strip characters satisfying `p` from both ends (Python `str.strip`). -/
def stripChars (p : Char → Bool) (cs : List Char) : List Char :=
  ((cs.dropWhile p).reverse.dropWhile p).reverse

/-- Python `str.strip()` (whitespace). -/
def pyStrip (s : String) : String :=
  ⟨stripChars isPyWS s.toList⟩

/-- Python `str.lstrip()`. -/
def pyLStrip (s : String) : String :=
  ⟨s.toList.dropWhile isPyWS⟩

/-- Python `str.splitlines` on the ASCII line terminators
`\n`, `\r`, `\r\n` (accumulator holds the current line reversed). -/
def splitlinesAux : List Char → List Char → List (List Char)
  | cur, [] => if cur.isEmpty then [] else [cur.reverse]
  | cur, '\r' :: '\n' :: rest => cur.reverse :: splitlinesAux [] rest
  | cur, '\r' :: rest => cur.reverse :: splitlinesAux [] rest
  | cur, '\n' :: rest => cur.reverse :: splitlinesAux [] rest
  | cur, c :: rest => splitlinesAux (c :: cur) rest

/-- Python `str.splitlines()`. -/
def pySplitlines (s : String) : List String :=
  (splitlinesAux [] s.toList).map fun cs => ⟨cs⟩

/-- Split a character list at the first occurrence of `t`:
returns the part before (which does not contain `t`) and after. -/
def breakAtChar (t : Char) : List Char → Option (List Char × List Char)
  | [] => none
  | c :: rest =>
    if c = t then some ([], rest)
    else
      match breakAtChar t rest with
      | some (pre, post) => some (c :: pre, post)
      | none => none

/-- Match `\[([^\]]*)\]\(([^)]+)\)` exactly at the head of the input:
label up to the first `]`, then `(`, then a nonempty destination up to the
first `)`.  With `needLabel` the label must be nonempty (`[^\]]+`).
Returns the label and the rest of the input after the match. -/
def matchSquarePar (needLabel : Bool) (cs : List Char) : Option (List Char × List Char) :=
  match cs with
  | '[' :: rest =>
    match breakAtChar ']' rest with
    | some (label, after1) =>
      if needLabel && label.isEmpty then none
      else
        match after1 with
        | '(' :: rest2 =>
          match breakAtChar ')' rest2 with
          | some (url, after2) => if url.isEmpty then none else some (label, after2)
          | none => none
        | _ => none
    | none => none
  | _ => none

/-- `re.sub(r"!\[([^\]]*)\]\([^)]+\)", r"\1", text)`: replace image
syntax by its alt text. -/
def subImageAux : Nat → List Char → List Char
  | 0, cs => cs
  | _ + 1, [] => []
  | fuel + 1, c :: rest =>
    if c = '!' then
      match matchSquarePar false rest with
      | some (label, after) => label ++ subImageAux fuel after
      | none => c :: subImageAux fuel rest
    else c :: subImageAux fuel rest

/-- `re.sub(r"\[([^\]]+)\]\([^)]+\)", r"\1", text)`: replace link syntax
by its label. -/
def subLinkAux : Nat → List Char → List Char
  | 0, cs => cs
  | _ + 1, [] => []
  | fuel + 1, c :: rest =>
    match matchSquarePar true (c :: rest) with
    | some (label, after) => label ++ subLinkAux fuel after
    | none => c :: subLinkAux fuel rest

/-- `re.sub(r"`[^`]*`", r"\1" ...)` keeping content: remove inline-code
backticks but keep the inner text. -/
def subTicksAux : Nat → List Char → List Char
  | 0, cs => cs
  | _ + 1, [] => []
  | fuel + 1, c :: rest =>
    if c = '`' then
      match breakAtChar '`' rest with
      | some (inner, after) => inner ++ subTicksAux fuel after
      | none => c :: rest
    else c :: subTicksAux fuel rest

/-- Python `str.replace(pat, "")` for a nonempty pattern: remove every
occurrence, scanning left to right. -/
def removeSubstrAux (pat : List Char) : Nat → List Char → List Char
  | 0, cs => cs
  | _ + 1, [] => []
  | fuel + 1, c :: rest =>
    if pat.isPrefixOf (c :: rest) then
      removeSubstrAux pat fuel ((c :: rest).drop pat.length)
    else c :: removeSubstrAux pat fuel rest

/-- `re.sub(r"<[^>]+>", "", text)`: strip HTML tags (at least one
non-`>` character between the brackets; `<>` is not a match and the
scanner advances one character, as `re.sub` does). -/
def stripTagsAux : Nat → List Char → List Char
  | 0, cs => cs
  | _ + 1, [] => []
  | fuel + 1, c :: rest =>
    if c = '<' then
      match breakAtChar '>' rest with
      | some (inner, after) =>
        if inner.isEmpty then c :: stripTagsAux fuel rest
        else stripTagsAux fuel after
      | none => c :: stripTagsAux fuel rest
    else c :: stripTagsAux fuel rest

/-- `_strip_markdown_formatting`: replace image and link syntax by their
text, drop inline-code ticks keeping content, remove emphasis markers,
strip HTML tags. -/
def stripMarkdownFormatting (s : String) : String :=
  let cs := s.toList
  let cs := subImageAux cs.length cs
  let cs := subLinkAux cs.length cs
  let cs := subTicksAux cs.length cs
  let cs := removeSubstrAux "**".toList cs.length cs
  let cs := removeSubstrAux "__".toList cs.length cs
  let cs := removeSubstrAux "*".toList cs.length cs
  let cs := removeSubstrAux "_".toList cs.length cs
  let cs := stripTagsAux cs.length cs
  ⟨cs⟩

/-- Value of an HTML entity body (the text between `&` and `;`).
Model of the stdlib `html.unescape` table restricted to the common named
entities and decimal numeric references; everything else is left
untouched, which is also what the stdlib does for unknown names. -/
def entityValue (name : List Char) : Option Char :=
  if name = "amp".toList then some '&'
  else if name = "lt".toList then some '<'
  else if name = "gt".toList then some '>'
  else if name = "quot".toList then some (Char.ofNat 34)
  else if name = "apos".toList then some (Char.ofNat 39)
  else if name = "nbsp".toList then some ' '
  else
    match name with
    | '#' :: ds =>
      if ds ≠ [] ∧ ds.all Char.isDigit then
        some (Char.ofNat (ds.foldl (fun n d => 10 * n + (d.toNat - 48)) 0))
      else none
    | _ => none

/-- Model of Python `html.unescape` (see `entityValue`): decode
`&name;` / `&#N;` sequences, leave unrecognised text unchanged. -/
def htmlUnescapeAux : Nat → List Char → List Char
  | 0, cs => cs
  | _ + 1, [] => []
  | fuel + 1, c :: rest =>
    if c = '&' then
      match breakAtChar ';' rest with
      | some (name, after) =>
        match entityValue name with
        | some ch => ch :: htmlUnescapeAux fuel after
        | none => c :: htmlUnescapeAux fuel rest
      | none => c :: htmlUnescapeAux fuel rest
    else c :: htmlUnescapeAux fuel rest

/-- Python `html.unescape` (common-subset model). -/
def htmlUnescape (s : String) : String :=
  ⟨htmlUnescapeAux s.toList.length s.toList⟩

/-- `re.sub(r"\s+", "-", text)`: collapse each run of whitespace into a
single hyphen. -/
def wsToHyphenAux : Nat → List Char → List Char
  | 0, cs => cs
  | _ + 1, [] => []
  | fuel + 1, c :: rest =>
    if isPyWS c then '-' :: wsToHyphenAux fuel (rest.dropWhile isPyWS)
    else c :: wsToHyphenAux fuel rest

/-- Slugger step 4: collapse whitespace runs to single hyphens. -/
def collapseWhitespace (s : String) : String :=
  ⟨wsToHyphenAux s.toList.length s.toList⟩

/-- Slugger step 5, `re.sub(r"[^\w-]", "", text)`: keep only word
characters and hyphens. -/
def removeNonWord (s : String) : String :=
  ⟨s.toList.filter fun c => isWordChar c || c = '-'⟩

/-- Slugger step 6, `text.strip("-")`. -/
def stripHyphens (s : String) : String :=
  ⟨stripChars (fun c => c = '-') s.toList⟩

/-- Python `str.lower()` (ASCII model). -/
def pyLower (s : String) : String :=
  ⟨s.toList.map Char.toLower⟩

/-- `_github_heading_slug`: the GitHub-flavored heading slug of a
heading text. -/
def githubHeadingSlug (headingText : String) : String :=
  let text := pyStrip headingText
  let text := stripMarkdownFormatting text
  let text := htmlUnescape text
  let text := pyLower (pyStrip text)
  let text := collapseWhitespace text
  let text := removeNonWord text
  stripHyphens text

/-- `_strip_blockquote_prefix`: left-strip whitespace, then repeatedly
drop a leading `>` and following whitespace. -/
def stripBlockquoteAux : Nat → List Char → List Char
  | 0, cs => cs
  | fuel + 1, cs =>
    match cs.dropWhile isPyWS with
    | '>' :: rest => stripBlockquoteAux fuel rest
    | other => other

/-- `_strip_blockquote_prefix` on strings. -/
def stripBlockquoteMark (line : String) : String :=
  ⟨stripBlockquoteAux line.toList.length line.toList⟩

/-- `re.match(r"^(#{1,6})\s+(.+?)\s*$", s)`, returning group 2 (the
heading text between the hash marks and the trimmed end).  Matches only
when there are one to six leading `#`, followed by whitespace, followed
by at least one further character. -/
def atxMatch (s : String) : Option String :=
  let cs := s.toList
  let hashes := cs.takeWhile fun c => c = '#'
  let rest := cs.dropWhile fun c => c = '#'
  if hashes.length = 0 ∨ 6 < hashes.length then none
  else
    match rest with
    | c :: _ =>
      if isPyWS c then
        let body := stripChars isPyWS rest
        if body.isEmpty then none else some ⟨body⟩
      else none
    | [] => none

/-- `re.sub(r"\s+#+\s*$", "", heading)`: drop a trailing closing run of
`#` characters together with the whitespace before it. -/
def stripTrailingHashes (s : String) : String :=
  let r := s.toList.reverse
  let r1 := r.dropWhile isPyWS
  let r2 := r1.dropWhile fun c => c = '#'
  let r3 := r2.dropWhile isPyWS
  if r2.length < r1.length ∧ r3.length < r2.length then ⟨r3.reverse⟩ else s

/-- `re.fullmatch(r"=+", s)` (together with the `underline` truthiness
check of the source). -/
def isEqUnderline (s : String) : Bool :=
  !s.toList.isEmpty && s.toList.all fun c => c = '='

/-- `re.fullmatch(r"-+", s)`. -/
def isDashUnderline (s : String) : Bool :=
  !s.toList.isEmpty && s.toList.all fun c => c = '-'

/-- Python `str.startswith` (kernel-reducible char-list version). -/
def strStartsWith (s pre : String) : Bool :=
  pre.toList.isPrefixOf s.toList

/-- Fence-toggle test used by both scanners: the left-stripped line
starts with three backticks or three tildes. -/
def isFenceToggle (line : String) : Bool :=
  strStartsWith (pyLStrip line) "```" || strStartsWith (pyLStrip line) "~~~"

/-- `add_heading_anchor`: given the per-document counter map, slug the
heading; an empty base slug registers nothing and leaves the counters
unchanged; otherwise the current count picks the bare slug or the
`-n`-suffixed one and the counter is bumped. -/
def addHeadingAnchor (counts : String → Nat) (headingText : String) :
    (String → Nat) × Option String :=
  let base := githubHeadingSlug headingText
  if base = "" then (counts, none)
  else
    let k := counts base
    (fun b => if b = base then k + 1 else counts b,
     some ("#" ++ (if k = 0 then base else base ++ "-" ++ toString k)))

/-- The scan loop of `_extract_anchors` over the document's lines:
fence toggling, blockquote stripping, ATX headings, setext headings
(consuming the underline line, `i += 2`).  The anchor set is modelled as
the list of registrations in document order; membership is the set
interface.  The loop consumes one or two lines per step, so it recurses
on a fuel initialised to the number of lines. -/
def extractAnchorsLoop : Nat → Bool → (String → Nat) → List String → List String
  | 0, _, _, _ => []
  | _ + 1, _, _, [] => []
  | fuel + 1, inFence, counts, line :: rest =>
    if isFenceToggle line then extractAnchorsLoop fuel (!inFence) counts rest
    else if inFence then extractAnchorsLoop fuel inFence counts rest
    else
      let normalized := pyStrip (stripBlockquoteMark line)
      match atxMatch normalized with
      | some g2 =>
        let heading := pyStrip (stripTrailingHashes g2)
        let p := addHeadingAnchor counts heading
        p.2.toList ++ extractAnchorsLoop fuel inFence p.1 rest
      | none =>
        match rest with
        | u :: rest2 =>
          let underline := pyStrip (stripBlockquoteMark u)
          if isEqUnderline underline || isDashUnderline underline then
            let p := addHeadingAnchor counts normalized
            p.2.toList ++ extractAnchorsLoop fuel inFence p.1 rest2
          else extractAnchorsLoop fuel inFence counts (u :: rest2)
        | [] => []

/-- `_extract_anchors`. -/
def extractAnchors (text : String) : List String :=
  let lines := pySplitlines text
  extractAnchorsLoop lines.length false (fun _ => 0) lines

/-- The heading texts the `_extract_anchors` scan feeds to
`add_heading_anchor`, in document order (same scan, counters dropped). -/
def headingsLoop : Nat → Bool → List String → List String
  | 0, _, _ => []
  | _ + 1, _, [] => []
  | fuel + 1, inFence, line :: rest =>
    if isFenceToggle line then headingsLoop fuel (!inFence) rest
    else if inFence then headingsLoop fuel inFence rest
    else
      let normalized := pyStrip (stripBlockquoteMark line)
      match atxMatch normalized with
      | some g2 => pyStrip (stripTrailingHashes g2) :: headingsLoop fuel inFence rest
      | none =>
        match rest with
        | u :: rest2 =>
          let underline := pyStrip (stripBlockquoteMark u)
          if isEqUnderline underline || isDashUnderline underline then
            normalized :: headingsLoop fuel inFence rest2
          else headingsLoop fuel inFence (u :: rest2)
        | [] => []

/-- Heading texts of a document in document order. -/
def headingsOf (text : String) : List String :=
  let lines := pySplitlines text
  headingsLoop lines.length false lines

/-- Pure anchor-assignment fold over the base slugs of the headings. -/
def assignSlugged (counts : String → Nat) : List String → List String
  | [] => []
  | b :: bs =>
    if b = "" then assignSlugged counts bs
    else
      ("#" ++ (if counts b = 0 then b else b ++ "-" ++ toString (counts b))) ::
        assignSlugged (fun x => if x = b then counts b + 1 else counts x) bs

/-- Specification form of the anchor assigned to the `i`-th heading:
nothing for an empty base slug, else the base slug suffixed with the
number of earlier headings sharing that base slug. -/
def expectedAnchor (bs : List String) (i : Nat) : Option String :=
  let b := bs.getD i ""
  if b = "" then none
  else
    let k := (bs.take i).count b
    some ("#" ++ (if k = 0 then b else b ++ "-" ++ toString k))

theorem assignSlugged_congr :
    ∀ (bs : List String) (c c' : String → Nat),
      (∀ b, b ≠ "" → c b = c' b) → assignSlugged c bs = assignSlugged c' bs := by
  intro bs
  induction bs with
  | nil => intro c c' _; rfl
  | cons b bs ih =>
    intro c c' hcc
    by_cases hb : b = ""
    · simp only [assignSlugged, hb, if_pos rfl]
      exact ih c c' hcc
    · simp only [assignSlugged, if_neg hb]
      have h1 : c b = c' b := hcc b hb
      have h2 : assignSlugged (fun x => if x = b then c b + 1 else c x) bs
          = assignSlugged (fun x => if x = b then c' b + 1 else c' x) bs := by
        apply ih
        intro x hx
        by_cases hxb : x = b
        · simp [hxb, h1]
        · simp [hxb, hcc x hx]
      rw [h2, h1]

theorem addHeadingAnchor_assign (c : String → Nat) (h : String) (bs : List String) :
    (addHeadingAnchor c h).2.toList ++ assignSlugged (addHeadingAnchor c h).1 bs
      = assignSlugged c (githubHeadingSlug h :: bs) := by
  by_cases hb : githubHeadingSlug h = ""
  · simp [addHeadingAnchor, assignSlugged, hb]
  · simp [addHeadingAnchor, assignSlugged, hb]

theorem extractAnchorsLoop_eq_assign :
    ∀ (fuel : Nat) (inFence : Bool) (c : String → Nat) (ls : List String),
      extractAnchorsLoop fuel inFence c ls
        = assignSlugged c ((headingsLoop fuel inFence ls).map githubHeadingSlug) := by
  intro fuel
  induction fuel with
  | zero => intro inFence c ls; rfl
  | succ fuel ih =>
    intro inFence c ls
    match ls with
    | [] => rfl
    | line :: rest =>
      simp only [extractAnchorsLoop, headingsLoop]
      cases hf : isFenceToggle line with
      | true => simp only [if_true]; exact ih _ c rest
      | false =>
        simp only [Bool.false_eq_true, if_false]
        cases hin : inFence with
        | true => simp only [if_true]; exact ih _ c rest
        | false =>
          simp only [Bool.false_eq_true, if_false]
          cases hatx : atxMatch (pyStrip (stripBlockquoteMark line)) with
          | some g2 =>
            dsimp only
            simp only [List.map_cons]
            rw [ih, addHeadingAnchor_assign]
          | none =>
            dsimp only
            cases rest with
            | nil => rfl
            | cons u rest2 =>
              dsimp only
              by_cases hu : (isEqUnderline (pyStrip (stripBlockquoteMark u))
                  || isDashUnderline (pyStrip (stripBlockquoteMark u))) = true
              · rw [if_pos hu, if_pos hu, ih, List.map_cons, addHeadingAnchor_assign]
              · rw [if_neg hu, if_neg hu]
                exact ih _ c (u :: rest2)

theorem assignSlugged_count :
    ∀ (bs pre : List String),
      assignSlugged (fun x => pre.count x) bs =
        (List.range bs.length).filterMap (fun i =>
          if bs.getD i "" = "" then none
          else
            some ("#" ++
              (if (pre ++ bs.take i).count (bs.getD i "") = 0 then bs.getD i ""
               else bs.getD i "" ++ "-" ++ toString ((pre ++ bs.take i).count (bs.getD i ""))))) := by
  intro bs
  induction bs with
  | nil => intro pre; rfl
  | cons b bs ih =>
    intro pre
    rw [List.length_cons, List.range_succ_eq_map, List.filterMap_cons, List.filterMap_map]
    by_cases hb : b = ""
    · simp only [hb, List.getD_cons_zero, if_pos rfl]
      have hcongr : assignSlugged (fun x => pre.count x) ("" :: bs)
          = assignSlugged (fun x => (pre ++ [("" : String)]).count x) bs := by
        simp only [assignSlugged, if_pos rfl]
        exact assignSlugged_congr bs _ _ (fun x hx => by
          simp [List.count_append, List.count_singleton]
          intro hxe; exact absurd hxe.symm hx)
      rw [hcongr, ih (pre ++ [""])]
      apply List.filterMap_congr
      intro i _
      simp only [Function.comp]
      simp [List.getD_cons_succ, List.take_succ_cons, List.append_assoc]
    · have hhead : assignSlugged (fun x => pre.count x) (b :: bs)
          = ("#" ++ (if pre.count b = 0 then b else b ++ "-" ++ toString (pre.count b)))
              :: assignSlugged (fun x => (pre ++ [b]).count x) bs := by
        simp only [assignSlugged, if_neg hb]
        congr 1
        exact assignSlugged_congr bs _ _ (fun x _ => by
          by_cases hxb : x = b <;>
            simp [hxb, List.count_append, List.count_singleton, List.count_cons])
      rw [hhead, ih (pre ++ [b])]
      simp only [List.getD_cons_zero, if_neg hb, List.take_zero, List.append_nil]
      congr 1
      apply List.filterMap_congr
      intro i _
      simp only [Function.comp]
      simp [List.getD_cons_succ, List.take_succ_cons, List.append_assoc]

/-- C1: the heading slugger is the pure composition of the six-step
normalization rule (strip Markdown formatting, decode HTML entities,
lowercase, collapse whitespace runs to one hyphen each, remove
non-word non-hyphen characters, trim hyphens at the ends), it collapses
whitespace runs without collapsing doubled hyphens, and on the quoted
inputs it returns the quoted slugs. -/
theorem slugger_literal_rule :
    (∀ s, githubHeadingSlug s =
      stripHyphens (removeNonWord (collapseWhitespace
        (pyLower (pyStrip (htmlUnescape (stripMarkdownFormatting (pyStrip s)))))))) ∧
    githubHeadingSlug "Spec-Driven Development" = "spec-driven-development" ∧
    githubHeadingSlug "A, B & C" = "a-b--c" ∧
    githubHeadingSlug "A   B" = "a-b" ∧
    githubHeadingSlug "--A--" = "a" ∧
    githubHeadingSlug "!!!" = "" := by
  refine ⟨fun s => rfl, ?_, ?_, ?_, ?_, ?_⟩ <;> rfl

/-- C2: anchors are assigned in document order with a per-document
counter keyed by base slug — the `i`-th heading registers nothing when
its base slug is empty, the bare slug when no earlier heading shares its
base slug, and `slug-k` when `k` earlier headings do; in particular two
identical headings yield `#a` then `#a-1`, and a heading with no
alphanumeric content registers no anchor. -/
theorem anchor_disambiguation :
    (∀ text, extractAnchors text =
      (List.range (headingsOf text).length).filterMap
        (expectedAnchor ((headingsOf text).map githubHeadingSlug))) ∧
    extractAnchors "# A\n\n# A" = ["#a", "#a-1"] ∧
    extractAnchors "# !!!" = [] := by
  refine ⟨?_, by decide, by decide⟩
  intro text
  have hzero : (fun _ : String => 0) = fun x => List.count x ([] : List String) := by
    funext x; simp
  rw [extractAnchors, hzero, extractAnchorsLoop_eq_assign, headingsOf]
  have := assignSlugged_count ((headingsLoop (pySplitlines text).length false
      (pySplitlines text)).map githubHeadingSlug) []
  rw [show (fun x => List.count x ([] : List String)) = (fun x : String => [].count x) from rfl]
  rw [this]
  simp only [List.length_map, List.nil_append]
  rfl

/-- `_strip_inline_code`, `re.sub(r"`[^`]*`", "", line)`: drop inline
code spans, delimiters included. -/
def stripInlineCodeAux : Nat → List Char → List Char
  | 0, cs => cs
  | _ + 1, [] => []
  | fuel + 1, c :: rest =>
    if c = '`' then
      match breakAtChar '`' rest with
      | some (_, after) => stripInlineCodeAux fuel after
      | none => c :: rest
    else c :: stripInlineCodeAux fuel rest

/-- `_strip_inline_code` on strings. -/
def stripInlineCode (line : String) : String :=
  ⟨stripInlineCodeAux line.toList.length line.toList⟩

/-- Match `\[[^\]]*\]\(([^)]+)\)` exactly at the head of the input,
returning the group-1 destination and the rest after the match. -/
def matchLinkCore (cs : List Char) : Option (List Char × List Char) :=
  match cs with
  | '[' :: rest =>
    match breakAtChar ']' rest with
    | some (_, after1) =>
      match after1 with
      | '(' :: rest2 =>
        match breakAtChar ')' rest2 with
        | some (url, after2) => if url.isEmpty then none else some (url, after2)
        | none => none
      | _ => none
    | none => none
  | _ => none

/-- `finditer` of `_LINK_PATTERN = !?\[[^\]]*\]\(([^)]+)\)` over one
line: group-1 captures in left-to-right, non-overlapping order. -/
def linkMatchesAux : Nat → List Char → List (List Char)
  | 0, _ => []
  | _ + 1, [] => []
  | fuel + 1, c :: rest =>
    if c = '!' then
      match matchLinkCore rest with
      | some (url, after) => url :: linkMatchesAux fuel after
      | none => linkMatchesAux fuel rest
    else
      match matchLinkCore (c :: rest) with
      | some (url, after) => url :: linkMatchesAux fuel after
      | none => linkMatchesAux fuel rest

/-- Post-processing of one matched destination: strip, unwrap an
angle-bracketed destination, otherwise take the first whitespace-token
(`dest.split()[0]`).  `none` models the IndexError that
`dest.split()[0]` raises when the destination strips to the empty
string. -/
def processDest (raw : List Char) : Option String :=
  let dest := stripChars isPyWS raw
  if (match dest with | '<' :: _ => true | _ => false) && dest.contains '>' then
    match dest with
    | _ :: tl => some ⟨stripChars isPyWS (tl.takeWhile fun c => c != '>')⟩
    | [] => none
  else
    match dest with
    | [] => none
    | tok => some ⟨tok.takeWhile fun c => !isPyWS c⟩

/-- Sequence the destination post-processing over one line's matches:
`none` as soon as one of them raises. -/
def seqDests : List (List Char) → Option (List String)
  | [] => some []
  | r :: rs =>
    match processDest r, seqDests rs with
    | some d, some ds => some (d :: ds)
    | _, _ => none

/-- The line loop of `_extract_markdown_links`: fence state toggled by
fence lines (which are otherwise skipped), fenced lines skipped, inline
code stripped before matching; line numbers are 1-based and advance on
every line.  `none` models the IndexError escaping the extraction. -/
def extractLinksLoop : Bool → Nat → List String → Option (List (String × Nat))
  | _, _, [] => some []
  | inFence, n, line :: rest =>
    if isFenceToggle line then extractLinksLoop (!inFence) (n + 1) rest
    else if inFence then extractLinksLoop inFence (n + 1) rest
    else
      let scan := stripInlineCode line
      match seqDests (linkMatchesAux scan.toList.length scan.toList) with
      | none => none
      | some ds =>
        match extractLinksLoop inFence (n + 1) rest with
        | none => none
        | some tail => some (ds.map (fun d => (d, n)) ++ tail)

/-- `_extract_markdown_links`. -/
def extractMarkdownLinks (text : String) : Option (List (String × Nat)) :=
  extractLinksLoop false 1 (pySplitlines text)

/-- Valid `urlsplit` scheme: a letter followed by letters, digits,
`+`, `-`, `.`. -/
def isSchemeChars : List Char → Bool
  | [] => false
  | c :: rest => c.isAlpha && rest.all fun d => d.isAlphanum || d = '+' || d = '-' || d = '.'

/-- Result of `urllib.parse.urlsplit`. -/
structure SplitUrl where
  scheme : String
  netloc : String
  path : String
  query : String
  fragment : String

/-- Model of `urllib.parse.urlsplit` for the destinations handled here:
fragment after the first `#`, then a scheme prefix before `:` when its
characters form a valid scheme, then a `//`-netloc up to the next `/` or
`?`, then the `?`-query. -/
def urlsplit (url : String) : SplitUrl :=
  let pf :=
    match breakAtChar '#' url.toList with
    | some (b, f) => (b, f)
    | none => (url.toList, [])
  let sr :=
    match breakAtChar ':' pf.1 with
    | some (pre, post) =>
      if isSchemeChars pre then (pre.map Char.toLower, post) else ([], pf.1)
    | none => ([], pf.1)
  let nr :=
    match sr.2 with
    | '/' :: '/' :: rest =>
      (rest.takeWhile fun c => !(c = '/' || c = '?'),
       rest.dropWhile fun c => !(c = '/' || c = '?'))
    | other => ([], other)
  let pq :=
    match breakAtChar '?' nr.2 with
    | some (b, q) => (b, q)
    | none => (nr.2, [])
  ⟨⟨sr.1⟩, ⟨nr.1⟩, ⟨pq.1⟩, ⟨pq.2⟩, ⟨pf.2⟩⟩

/-- Hexadecimal digit value. -/
def hexVal (c : Char) : Option Nat :=
  if c.isDigit then some (c.toNat - 48)
  else if 'a' ≤ c ∧ c ≤ 'f' then some (c.toNat - 87)
  else if 'A' ≤ c ∧ c ≤ 'F' then some (c.toNat - 55)
  else none

/-- `urllib.parse.unquote`, ASCII model: decode `%XX` percent escapes
(multi-byte UTF-8 sequences are out of the ASCII model). -/
def unquoteAux : Nat → List Char → List Char
  | 0, cs => cs
  | _ + 1, [] => []
  | fuel + 1, c :: rest =>
    if c = '%' then
      match rest with
      | h1 :: h2 :: rest2 =>
        match hexVal h1, hexVal h2 with
        | some a, some b => Char.ofNat (16 * a + b) :: unquoteAux fuel rest2
        | _, _ => c :: unquoteAux fuel rest
      | _ => c :: unquoteAux fuel rest
    else c :: unquoteAux fuel rest

/-- `urllib.parse.unquote` on strings. -/
def unquote (s : String) : String :=
  ⟨unquoteAux s.toList.length s.toList⟩

/-- `_normalize_link_destination`: strip, and unwrap a fully
angle-bracket-wrapped destination. -/
def normalizeLinkDestination (dest : String) : String :=
  let cs := (pyStrip dest).toList
  if (match cs with | '<' :: _ => true | _ => false) && cs.getLast? = some '>' then
    ⟨stripChars isPyWS ((cs.drop 1).dropLast)⟩
  else ⟨cs⟩

/-- Substring test (`in` on Python strings). -/
def listHasInfix (pat : List Char) : List Char → Bool
  | [] => pat.isEmpty
  | c :: rest => pat.isPrefixOf (c :: rest) || listHasInfix pat rest

/-- `_should_ignore_link`: the documented exclusion list. -/
def shouldIgnoreLink (url : String) : Bool :=
  let ucs := url.toList
  let lw := ucs.map Char.toLower
  (ucs == ['#']) ||
  ("mailto:".toList.isPrefixOf lw || "tel:".toList.isPrefixOf lw ||
    "javascript:".toList.isPrefixOf lw) ||
  (listHasInfix "\x7b\x7b".toList ucs || listHasInfix "\x7d\x7d".toList ucs) ||
  (listHasInfix "<".toList ucs || listHasInfix ">".toList ucs) ||
  (listHasInfix "example.com".toList lw) ||
  (listHasInfix "/path/to/".toList lw || "path/to/".toList.isPrefixOf lw)

/-- Absolute filesystem paths are modelled as component lists from the
filesystem root (no symlinks in the model). -/
abbrev AbsPath := List String

/-- Split a character list on a separator character. -/
def splitCharAux (sep : Char) : List Char → List Char → List (List Char)
  | cur, [] => [cur.reverse]
  | cur, c :: rest =>
    if c = sep then cur.reverse :: splitCharAux sep [] rest
    else splitCharAux sep (c :: cur) rest

/-- `PurePosixPath(p)` parse: absoluteness flag and components (pathlib
drops empty and `.` components). -/
def parsePosix (p : String) : Bool × List String :=
  let cs := p.toList
  let isAbs := match cs with | '/' :: _ => true | _ => false
  let comps := (splitCharAux '/' [] cs).filter fun c => !c.isEmpty && c != ['.']
  (isAbs, comps.map fun c => ⟨c⟩)

/-- `Path.resolve(strict=False)` lexical normalization: drop `.` and
empty components, let `..` pop the previous component (`..` at the
filesystem root stays at the root). -/
def resolveComps (comps : List String) : AbsPath :=
  comps.foldl
    (fun acc c =>
      if c = ".." then acc.dropLast
      else if c = "." ∨ c = "" then acc
      else acc ++ [c]) []

/-- Join root-relative components with `/` (`PurePosixPath.as_posix`). -/
def joinPath : List String → String
  | [] => ""
  | [c] => c
  | c :: rest => c ++ "/" ++ joinPath rest

/-- `_resolve_link_path`: absolute destinations are joined to the
declared root after dropping leading slashes, relative ones to the
source document's containing directory; the result is normalized and
must stay inside the root (`is_relative_to`), else `none`.
The declared root is assumed normalized, as `Path(repo_root)` of a real
directory is. -/
def resolveLinkPath (root : AbsPath) (sourceFile : AbsPath) (linkPath : String) :
    Option AbsPath :=
  let lp := pyStrip linkPath
  let pp := parsePosix lp
  let candidate :=
    if pp.1 then resolveComps (root ++ pp.2)
    else resolveComps (sourceFile.dropLast ++ pp.2)
  if root.isPrefixOf candidate then some candidate else none

/-- `_rel_path`: the resolved path relative to the root, as a
forward-slash string (`"."` when the path is the root itself), or
`none` when outside the root. -/
def relPath (root : AbsPath) (p : AbsPath) : Option String :=
  let q := resolveComps p
  if q = root then some "."
  else if root.isPrefixOf q then some (joinPath (q.drop root.length))
  else none

/-- `_build_tracked_dirs`: every proper nonempty prefix of a tracked
file path is a tracked directory. -/
def buildTrackedDirs (trackedFiles : List String) : List String :=
  trackedFiles.flatMap fun rel =>
    let comps := (parsePosix rel).2
    (List.range comps.length).filterMap fun k =>
      if k = 0 then none else some (joinPath (comps.take k))

/-- `_is_tracked_dir`: membership in the tracked-directory set after
stripping surrounding slashes and converting backslashes. -/
def isTrackedDir (dirs : List String) (rel : String) : Bool :=
  let cs := stripChars (fun c => c = '/') rel.toList
  let cs := cs.map fun c => if c = '\\' then '/' else c
  decide ((⟨cs⟩ : String) ∈ dirs)

/-- `_tracked_path_exists`: a path exists iff it is a tracked file or a
tracked directory — membership in the supplied enumeration only, never
a filesystem check. -/
def trackedPathExists (trackedFiles dirs : List String) (rel : String) : Bool :=
  decide (rel ∈ trackedFiles) || isTrackedDir dirs rel

/-- `Path.suffix` of the final component (the extension including the
dot, when the last dot is strictly inside the name). -/
def pathSuffix (p : AbsPath) : String :=
  match p.getLast? with
  | none => ""
  | some name =>
    let cs := name.toList
    match cs.reverse.findIdx? (fun c => c == '.') with
    | some j =>
      let i := cs.length - 1 - j
      if 0 < i ∧ i < cs.length - 1 then ⟨cs.drop i⟩ else ""
    | none => ""

/-- The validator's environment: declared root, externally supplied
tracked-file enumeration, and file contents (`none` models an `OSError`
on `read_text`). -/
structure Env where
  root : AbsPath
  trackedFiles : List String
  fs : AbsPath → Option String

/-- The derived tracked-directory set. -/
def Env.dirs (e : Env) : List String :=
  buildTrackedDirs e.trackedFiles

/-- `MarkdownLinkError`. -/
structure MarkdownLinkError where
  sourceFile : String
  sourceLine : Nat
  link : String
  message : String
deriving DecidableEq, Repr

/-- The per-run anchors cache (`_anchors_cache`), keyed by root-relative
path. -/
abbrev AnchorCache := List (String × List String)

/-- Dictionary lookup. -/
def cacheGet (c : AnchorCache) (k : String) : Option (List String) :=
  match c.find? (fun p => decide (p.1 = k)) with
  | some p => some p.2
  | none => none

/-- Dictionary insert (only ever called after a missed lookup). -/
def cacheInsert (c : AnchorCache) (k : String) (v : List String) : AnchorCache :=
  c ++ [(k, v)]

/-- `_anchors_for_file`: cached per relative path; an unreadable file
silently yields (and caches) the empty anchor set. -/
def anchorsForFile (e : Env) (cache : AnchorCache) (file : AbsPath) :
    List String × AnchorCache :=
  match relPath e.root file with
  | none => ([], cache)
  | some rel =>
    match cacheGet cache rel with
    | some a => (a, cache)
    | none =>
      match e.fs file with
      | none => ([], cacheInsert cache rel [])
      | some content =>
        let a := extractAnchors content
        (a, cacheInsert cache rel a)

/-- `_validate_anchor`: membership of `#fragment` in the target's anchor
set; a miss produces the single error naming the anchor and the target. -/
def validateAnchor (e : Env) (cache : AnchorCache) (relSource : String)
    (sourceLine : Nat) (link : String) (targetFile : AbsPath) (fragment : String) :
    List MarkdownLinkError × AnchorCache :=
  let p := anchorsForFile e cache targetFile
  let anchor := "#" ++ fragment
  if decide (anchor ∈ p.1) then ([], p.2)
  else
    let targetRel :=
      match relPath e.root targetFile with
      | some r => r
      | none => joinPath targetFile
    ([⟨relSource, sourceLine, link,
        "Anchor \"" ++ anchor ++ "\" not found in " ++ targetRel⟩], p.2)

/-- `_validate_link`: classification and validation of one normalized,
non-ignored destination. -/
def validateLink (e : Env) (cache : AnchorCache) (relSource : String)
    (sourceFile : AbsPath) (url : String) (lineNum : Nat) :
    List MarkdownLinkError × AnchorCache :=
  let parsed := urlsplit url
  if !parsed.scheme.toList.isEmpty || !parsed.netloc.toList.isEmpty then ([], cache)
  else
    let fragment := pyStrip (unquote parsed.fragment)
    let rawPath := pyStrip (unquote parsed.path)
    if rawPath.toList.isEmpty && !fragment.toList.isEmpty then
      validateAnchor e cache relSource lineNum url sourceFile fragment
    else if rawPath.toList.isEmpty then ([], cache)
    else
      match resolveLinkPath e.root sourceFile rawPath with
      | none =>
        ([⟨relSource, lineNum, url, "Link resolves outside repository: " ++ rawPath⟩],
         cache)
      | some resolvedTarget =>
        match relPath e.root resolvedTarget with
        | none =>
          ([⟨relSource, lineNum, url,
              "Target not found in git-tracked paths: " ++ rawPath⟩], cache)
        | some relTarget =>
          if !trackedPathExists e.trackedFiles e.dirs relTarget then
            ([⟨relSource, lineNum, url,
                "Target not found in git-tracked paths: " ++ rawPath⟩], cache)
          else
            let targetForAnchor :=
              if isTrackedDir e.dirs relTarget && !decide (relTarget ∈ e.trackedFiles) then
                let readmeRel :=
                  (⟨(relTarget.toList.reverse.dropWhile fun c => c = '/').reverse⟩ : String)
                    ++ "/README.md"
                if decide (readmeRel ∈ e.trackedFiles) then e.root ++ (parsePosix readmeRel).2
                else resolvedTarget
              else resolvedTarget
            if !fragment.toList.isEmpty && decide (pyLower (pathSuffix targetForAnchor) = ".md") then
              validateAnchor e cache relSource lineNum url targetForAnchor fragment
            else ([], cache)

/-- The per-link loop of `validate_file`: normalize, skip empty or
ignored destinations, validate the rest, accumulating errors and
threading the anchors cache. -/
def validateLinksLoop (e : Env) (cache : AnchorCache) (relSource : String)
    (sourceFile : AbsPath) : List (String × Nat) → List MarkdownLinkError × AnchorCache
  | [] => ([], cache)
  | (url, n) :: rest =>
    let u := normalizeLinkDestination url
    if u.toList.isEmpty || shouldIgnoreLink u then
      validateLinksLoop e cache relSource sourceFile rest
    else
      let p := validateLink e cache relSource sourceFile u n
      let q := validateLinksLoop e p.2 relSource sourceFile rest
      (p.1 ++ q.1, q.2)

/-- `validate_file`: source outside the root validates to nothing; an
unreadable source yields the single unreadable-document error (the
exception text is not modelled); otherwise extract and validate every
link.  `none` models an exception escaping the call (extraction runs to
completion before any validation, so the cache is untouched then). -/
def validateFile (e : Env) (cache : AnchorCache) (file : AbsPath) :
    Option (List MarkdownLinkError) × AnchorCache :=
  match relPath e.root file with
  | none => (some [], cache)
  | some relSource =>
    match e.fs file with
    | none => (some [⟨relSource, 1, "", "Unable to read file"⟩], cache)
    | some content =>
      match extractMarkdownLinks content with
      | none => (none, cache)
      | some links =>
        let p := validateLinksLoop e cache relSource file links
        (some p.1, p.2)

/-- `validate_files` with an explicit starting cache: extend the error
list file by file; an exception propagates immediately (losing the
errors accumulated so far), with the cache mutations made before it kept. -/
def validateFilesLoop (e : Env) (cache : AnchorCache) :
    List AbsPath → Option (List MarkdownLinkError) × AnchorCache
  | [] => (some [], cache)
  | f :: fs =>
    match validateFile e cache f with
    | (none, cache2) => (none, cache2)
    | (some errs, cache2) =>
      match validateFilesLoop e cache2 fs with
      | (none, cache3) => (none, cache3)
      | (some tail, cache3) => (some (errs ++ tail), cache3)

/-- `validate_files` on a fresh validator instance (empty cache). -/
def validateFiles (e : Env) (files : List AbsPath) :
    Option (List MarkdownLinkError) × AnchorCache :=
  validateFilesLoop e [] files

/-- A file system keyed by root-relative path: contents depend only on
the root-relative identity of a path, as on a real directory tree. -/
def tableFs (root : AbsPath) (table : String → Option String) : AbsPath → Option String :=
  fun p =>
    match relPath root p with
    | some k => table k
    | none => none

/-- Contents for a two-document repository used in concrete runs. -/
def tableA : String → Option String := fun k =>
  if k = "docs/a.md" then some "[x](#does-not-exist)\n[y](sibling.md#intro)"
  else if k = "docs/sibling.md" then some "# Intro"
  else none

/-- A two-document environment: `docs/a.md` links to a missing anchor in
itself and to an existing anchor in `docs/sibling.md`. -/
def envA : Env :=
  Env.mk ["repo"] ["docs/a.md", "docs/sibling.md"] (tableFs ["repo"] tableA)

/-- C3: anchor validation returns exactly one error — naming the exact
anchor string and the root-relative target — precisely when `#fragment`
is absent from the target's anchor set, and no error when present; in
particular the two-document run yields exactly the one missing-anchor
error and nothing for the valid `sibling.md#intro` link. -/
theorem anchor_error_iff_absent :
    (∀ (e : Env) (cache : AnchorCache) (relSource : String) (line : Nat)
        (link : String) (target : AbsPath) (frag : String),
      (validateAnchor e cache relSource line link target frag).1 =
        if "#" ++ frag ∈ (anchorsForFile e cache target).1 then []
        else [⟨relSource, line, link,
          "Anchor \"" ++ ("#" ++ frag) ++ "\" not found in " ++
            (match relPath e.root target with
             | some r => r
             | none => joinPath target)⟩]) ∧
    (validateFile envA [] ["repo", "docs", "a.md"]).1 =
      some [⟨"docs/a.md", 1, "#does-not-exist",
        "Anchor \"#does-not-exist\" not found in docs/a.md"⟩] := by
  constructor
  · intro e cache relSource line link target frag
    by_cases hm : "#" ++ frag ∈ (anchorsForFile e cache target).1 <;>
      simp [validateAnchor, hm]
  · decide

/-- Contents of a one-document repository whose only link has a
whitespace-only destination. -/
def tableCrash : String → Option String := fun k =>
  if k = "a.md" then some "[x](   )" else none

/-- Environment for the whitespace-destination document. -/
def envCrash : Env :=
  Env.mk ["repo"] ["a.md"] (tableFs ["repo"] tableCrash)

/-- C4: contrary to the claim, the link pattern does match a
destination consisting only of whitespace — `[x](   )` captures `"   "`
— and the destination post-processing then raises (modelled by `none`),
so the exception escapes `validate_file` and `validate_files` instead of
an error list being returned. -/
theorem whitespace_destination_raises :
    linkMatchesAux 8 "[x](   )".toList = ["   ".toList] ∧
    processDest "   ".toList = none ∧
    extractMarkdownLinks "[x](   )" = none ∧
    validateFile envCrash [] ["repo", "a.md"] = (none, []) ∧
    validateFiles envCrash [["repo", "a.md"]] = (none, []) := by
  refine ⟨by decide, by decide, by decide, by decide, by decide⟩

/-- C6: a resolved, root-contained target that is neither a tracked
file nor a tracked directory yields exactly the one "target not found"
error for that link, decided solely by `trackedPathExists` over the
supplied enumeration; concretely for `[z](../missing/file.md)`. -/
theorem target_not_found_error :
    (∀ (e : Env) (cache : AnchorCache) (relSource : String) (sourceFile : AbsPath)
        (url : String) (lineNum : Nat) (tgt : AbsPath) (relTgt : String),
      (urlsplit url).scheme.toList.isEmpty = true →
      (urlsplit url).netloc.toList.isEmpty = true →
      (pyStrip (unquote (urlsplit url).path)).toList.isEmpty = false →
      resolveLinkPath e.root sourceFile (pyStrip (unquote (urlsplit url).path)) = some tgt →
      relPath e.root tgt = some relTgt →
      trackedPathExists e.trackedFiles e.dirs relTgt = false →
      validateLink e cache relSource sourceFile url lineNum =
        ([⟨relSource, lineNum, url,
            "Target not found in git-tracked paths: " ++
              pyStrip (unquote (urlsplit url).path)⟩], cache)) ∧
    (validateLink envA [] "docs/a.md" ["repo", "docs", "a.md"] "../missing/file.md" 3).1 =
      [⟨"docs/a.md", 3, "../missing/file.md",
        "Target not found in git-tracked paths: ../missing/file.md"⟩] := by
  constructor
  · intro e cache relSource sourceFile url lineNum tgt relTgt hs hn hp hres hrel hex
    simp only [validateLink, hs, hn, hp, hres, hrel, hex, Bool.not_true, Bool.or_self,
      Bool.false_and, Bool.false_eq_true, if_false, Bool.not_false, if_true]
  · decide

/-- C6 witness. -/
theorem target_not_found_error_witness :
    validateLink envA [] "docs/a.md" ["repo", "docs", "a.md"] "../missing/file.md" 3 =
      ([⟨"docs/a.md", 3, "../missing/file.md",
          "Target not found in git-tracked paths: ../missing/file.md"⟩], []) :=
  target_not_found_error.1 envA [] "docs/a.md" ["repo", "docs", "a.md"]
    "../missing/file.md" 3 ["repo", "missing", "file.md"] "missing/file.md"
    (by decide) (by decide) (by decide) (by decide) (by decide) (by decide)

/-- C7: relative destinations resolve against the source document's
containing directory (the resolution depends on the source only through
its parent), `/`-prefixed destinations resolve against the declared root
(independently of the source), and a resolution escaping the root yields
exactly the one "resolves outside repository" error for that link. -/
theorem resolution_base_and_escape :
    (∀ (root src src' : AbsPath) (p : String),
      src.dropLast = src'.dropLast →
      resolveLinkPath root src p = resolveLinkPath root src' p) ∧
    (∀ (root src src' : AbsPath) (p : String),
      (parsePosix (pyStrip p)).1 = true →
      resolveLinkPath root src p = resolveLinkPath root src' p) ∧
    (∀ (e : Env) (cache : AnchorCache) (relSource : String) (sourceFile : AbsPath)
        (url : String) (lineNum : Nat),
      (urlsplit url).scheme.toList.isEmpty = true →
      (urlsplit url).netloc.toList.isEmpty = true →
      (pyStrip (unquote (urlsplit url).path)).toList.isEmpty = false →
      resolveLinkPath e.root sourceFile (pyStrip (unquote (urlsplit url).path)) = none →
      validateLink e cache relSource sourceFile url lineNum =
        ([⟨relSource, lineNum, url,
            "Link resolves outside repository: " ++
              pyStrip (unquote (urlsplit url).path)⟩], cache)) ∧
    (validateLink envA [] "docs/a.md" ["repo", "docs", "a.md"] "../../x.md" 1).1 =
      [⟨"docs/a.md", 1, "../../x.md", "Link resolves outside repository: ../../x.md"⟩] ∧
    resolveLinkPath ["repo"] ["repo", "docs", "a.md"] "/docs/sibling.md" =
      some ["repo", "docs", "sibling.md"] ∧
    resolveLinkPath ["repo"] ["repo", "docs", "a.md"] "sibling.md" =
      some ["repo", "docs", "sibling.md"] := by
  refine ⟨?_, ?_, ?_, by decide, by decide, by decide⟩
  · intro root src src' p h
    simp only [resolveLinkPath, h]
  · intro root src src' p h
    simp only [resolveLinkPath, h, if_true]
  · intro e cache relSource sourceFile url lineNum hs hn hp hres
    simp only [validateLink, hs, hn, hp, hres, Bool.not_true, Bool.or_self,
      Bool.false_and, Bool.false_eq_true, if_false]

/-- C7 witness. -/
theorem resolution_base_and_escape_witness :
    resolveLinkPath ["repo"] ["repo", "docs", "a.md"] "x.md" =
      resolveLinkPath ["repo"] ["repo", "docs", "b.md"] "x.md" ∧
    resolveLinkPath ["repo"] ["repo", "docs", "a.md"] "/y.md" =
      resolveLinkPath ["repo"] ["repo", "z", "c.md"] "/y.md" ∧
    validateLink envA [] "docs/a.md" ["repo", "docs", "a.md"] "../../x.md" 1 =
      ([⟨"docs/a.md", 1, "../../x.md",
          "Link resolves outside repository: ../../x.md"⟩], []) :=
  ⟨resolution_base_and_escape.1 ["repo"] ["repo", "docs", "a.md"] ["repo", "docs", "b.md"]
      "x.md" (by decide),
   resolution_base_and_escape.2.1 ["repo"] ["repo", "docs", "a.md"] ["repo", "z", "c.md"]
      "/y.md" (by decide),
   resolution_base_and_escape.2.2.1 envA [] "docs/a.md" ["repo", "docs", "a.md"]
      "../../x.md" 1 (by decide) (by decide) (by decide) (by decide)⟩

theorem cacheGet_insert (c : AnchorCache) (k : String) (v : List String) :
    cacheGet c k = none → cacheGet (cacheInsert c k v) k = some v := by
  intro h
  unfold cacheGet cacheInsert
  unfold cacheGet at h
  cases hf : c.find? (fun p => decide (p.1 = k)) with
  | some p => rw [hf] at h; simp at h
  | none =>
    rw [List.find?_append, hf]
    simp

/-- C10: when the target of a fragment link cannot be read, the anchor
lookup yields the empty set and caches it, the link is reported as an
anchor-not-found error (with the anchor-not-found message shape, not an
unreadable-document one), and any later fragment link to the same target
hits the cached empty set and gets the same kind of error. -/
theorem unreadable_target_empty_anchors :
    ∀ (e : Env) (cache : AnchorCache) (relSource relSource' : String) (n n' : Nat)
      (link link' : String) (target : AbsPath) (frag frag' rel : String),
      relPath e.root target = some rel →
      cacheGet cache rel = none →
      e.fs target = none →
      anchorsForFile e cache target = ([], cacheInsert cache rel []) ∧
      validateAnchor e cache relSource n link target frag =
        ([⟨relSource, n, link,
            "Anchor \"" ++ ("#" ++ frag) ++ "\" not found in " ++ rel⟩],
         cacheInsert cache rel []) ∧
      (validateAnchor e (cacheInsert cache rel []) relSource' n' link' target frag').1 =
        [⟨relSource', n', link',
          "Anchor \"" ++ ("#" ++ frag') ++ "\" not found in " ++ rel⟩] := by
  intro e cache relSource relSource' n n' link link' target frag frag' rel hrel hget hfs
  have h1 : anchorsForFile e cache target = ([], cacheInsert cache rel []) := by
    unfold anchorsForFile
    rw [hrel]
    dsimp only
    rw [hget]
    dsimp only
    rw [hfs]
  refine ⟨h1, ?_, ?_⟩
  · unfold validateAnchor
    rw [h1, hrel]
    simp
  · have h2 : anchorsForFile e (cacheInsert cache rel []) target =
        ([], cacheInsert cache rel []) := by
      unfold anchorsForFile
      rw [hrel]
      dsimp only
      rw [cacheGet_insert cache rel [] hget]
    unfold validateAnchor
    rw [h2, hrel]
    simp

/-- Contents for the unreadable-target run: `broken.md` is tracked but
unreadable. -/
def tableBroken : String → Option String := fun k =>
  if k = "a.md" then some "[x](broken.md#x)" else none

/-- Environment with an unreadable tracked target. -/
def envBroken : Env :=
  Env.mk ["repo"] ["a.md", "broken.md"] (tableFs ["repo"] tableBroken)

/-- C10 witness. -/
theorem unreadable_target_empty_anchors_witness :
    anchorsForFile envBroken [] ["repo", "broken.md"] =
      ([], cacheInsert [] "broken.md" []) ∧
    validateAnchor envBroken [] "a.md" 1 "broken.md#x" ["repo", "broken.md"] "x" =
      ([⟨"a.md", 1, "broken.md#x", "Anchor \"" ++ ("#" ++ "x") ++ "\" not found in broken.md"⟩],
       cacheInsert [] "broken.md" []) ∧
    (validateAnchor envBroken (cacheInsert [] "broken.md" []) "a.md" 2 "broken.md#y"
        ["repo", "broken.md"] "y").1 =
      [⟨"a.md", 2, "broken.md#y", "Anchor \"" ++ ("#" ++ "y") ++ "\" not found in broken.md"⟩] :=
  unreadable_target_empty_anchors envBroken [] "a.md" "a.md" 1 2 "broken.md#x" "broken.md#y"
    ["repo", "broken.md"] "x" "y" "broken.md" (by decide) (by decide) (by decide)

/-- Contents for a repository with a tracked directory named `d.md`
(no tracked `README.md` inside it). -/
def tableDirMd : String → Option String := fun k =>
  if k = "a.md" then some "[x](d.md#s)" else none

/-- Environment with a tracked directory whose name ends in `.md`. -/
def envDirMd : Env :=
  Env.mk ["repo"] ["a.md", "d.md/inner.txt"] (tableFs ["repo"] tableDirMd)

/-- C5 counterexample: `d.md` is a tracked directory that is not a
tracked file and has no tracked `README.md`, the link carries a
fragment — yet the claim's "no error is reported" fails: exactly one
error is reported, because the directory's name ends in `.md`. -/
theorem dir_fragment_counterexample :
    isTrackedDir envDirMd.dirs "d.md" = true ∧
    ¬ ("d.md" ∈ envDirMd.trackedFiles) ∧
    ¬ ("d.md/README.md" ∈ envDirMd.trackedFiles) ∧
    (validateLink envDirMd [] "a.md" ["repo", "a.md"] "d.md#s" 1).1 ≠ [] := by
  refine ⟨by decide, by decide, by decide, by decide⟩

/-- Contents of the directory-with-README repository, with the README
content left as a parameter. -/
def tableGuide (content : String) : String → Option String := fun k =>
  if k = "docs/guide/README.md" then some content else none

/-- Environment with a tracked directory `docs/guide` holding a tracked
`README.md` with the given content. -/
def envGuide (content : String) : Env :=
  Env.mk ["repo"] ["a.md", "docs/guide/README.md"] (tableFs ["repo"] (tableGuide content))

/-- Environment with a tracked directory `docs/guide` that has no
tracked index document. -/
def envNoIdx : Env :=
  Env.mk ["repo"] ["a.md", "docs/guide/other.md"] (tableFs ["repo"] fun _ => none)

/-- C5 (amended): a fragment link to a tracked directory with a tracked
`README.md` is validated against that README's anchor set — zero errors
precisely when the README has a heading slugging to the fragment; when
the directory has no tracked `README.md` and its name does not itself
end in `.md`, no anchor validation is performed and no error is
reported; when the directory's name does end in `.md`, the directory is
treated as a markdown target, its unreadable content yields an empty
anchor set, and an anchor-not-found error is reported. -/
theorem directory_link_redirection :
    (∀ (e : Env) (cache : AnchorCache) (relSource : String) (sourceFile : AbsPath)
        (url : String) (lineNum : Nat) (tgt : AbsPath) (relTgt readmeRel : String),
      (urlsplit url).scheme.toList.isEmpty = true →
      (urlsplit url).netloc.toList.isEmpty = true →
      (pyStrip (unquote (urlsplit url).path)).toList.isEmpty = false →
      resolveLinkPath e.root sourceFile (pyStrip (unquote (urlsplit url).path)) = some tgt →
      relPath e.root tgt = some relTgt →
      trackedPathExists e.trackedFiles e.dirs relTgt = true →
      isTrackedDir e.dirs relTgt = true →
      ¬ (relTgt ∈ e.trackedFiles) →
      readmeRel = (⟨(relTgt.toList.reverse.dropWhile fun c => c = '/').reverse⟩ : String)
        ++ "/README.md" →
      readmeRel ∈ e.trackedFiles →
      (pyStrip (unquote (urlsplit url).fragment)).toList.isEmpty = false →
      pyLower (pathSuffix (e.root ++ (parsePosix readmeRel).2)) = ".md" →
      validateLink e cache relSource sourceFile url lineNum =
        validateAnchor e cache relSource lineNum url (e.root ++ (parsePosix readmeRel).2)
          (pyStrip (unquote (urlsplit url).fragment))) ∧
    (validateLink (envGuide "## Setup") [] "a.md" ["repo", "a.md"]
        "docs/guide/#setup" 1).1 = [] ∧
    (validateLink (envGuide "## Other") [] "a.md" ["repo", "a.md"]
        "docs/guide/#setup" 1).1 =
      [⟨"a.md", 1, "docs/guide/#setup",
        "Anchor \"#setup\" not found in docs/guide/README.md"⟩] ∧
    (∀ (e : Env) (cache : AnchorCache) (relSource : String) (sourceFile : AbsPath)
        (url : String) (lineNum : Nat) (tgt : AbsPath) (relTgt : String),
      (urlsplit url).scheme.toList.isEmpty = true →
      (urlsplit url).netloc.toList.isEmpty = true →
      (pyStrip (unquote (urlsplit url).path)).toList.isEmpty = false →
      resolveLinkPath e.root sourceFile (pyStrip (unquote (urlsplit url).path)) = some tgt →
      relPath e.root tgt = some relTgt →
      trackedPathExists e.trackedFiles e.dirs relTgt = true →
      isTrackedDir e.dirs relTgt = true →
      ¬ (relTgt ∈ e.trackedFiles) →
      ¬ (((⟨(relTgt.toList.reverse.dropWhile fun c => c = '/').reverse⟩ : String)
            ++ "/README.md") ∈ e.trackedFiles) →
      ¬ (pyLower (pathSuffix tgt) = ".md") →
      validateLink e cache relSource sourceFile url lineNum = ([], cache)) ∧
    (validateLink envDirMd [] "a.md" ["repo", "a.md"] "d.md#s" 1).1 =
      [⟨"a.md", 1, "d.md#s", "Anchor \"#s\" not found in d.md"⟩] := by
  refine ⟨?_, by decide, by decide, ?_, by decide⟩
  · intro e cache relSource sourceFile url lineNum tgt relTgt readmeRel hs hn hp hres hrel
      hex hdir hfile hrd htracked hfrag hsuf
    subst hrd
    simp only [validateLink, hs, hn, hp, hres, hrel, hex, hdir, hfrag, Bool.not_true,
      Bool.or_self, Bool.false_and, Bool.false_eq_true, if_false, Bool.not_false, if_true,
      Bool.true_and, decide_eq_true_eq]
    rw [if_pos (show (!decide (relTgt ∈ e.trackedFiles)) = true by simp [hfile])]
    rw [if_pos htracked]
    rw [if_pos hsuf]
  · intro e cache relSource sourceFile url lineNum tgt relTgt hs hn hp hres hrel hex
      hdir hfile hreadme hsuffix
    simp only [validateLink, hs, hn, hp, hres, hrel, hex, hdir, Bool.not_true,
      Bool.or_self, Bool.false_and, Bool.false_eq_true, if_false, Bool.not_false, if_true,
      Bool.true_and, decide_eq_true_eq]
    rw [if_pos (show (!decide (relTgt ∈ e.trackedFiles)) = true by simp [hfile])]
    simp only [Bool.and_eq_true, decide_eq_true_eq, Bool.not_eq_true']
    split
    · rename_i hcnd
      exact absurd hcnd hreadme
    · rw [if_neg (fun h => hsuffix (And.right h))]

/-- C5 witness. -/
theorem directory_link_redirection_witness :
    validateLink (envGuide "## Setup") [] "a.md" ["repo", "a.md"] "docs/guide/#setup" 1 =
      validateAnchor (envGuide "## Setup") [] "a.md" 1 "docs/guide/#setup"
        (["repo"] ++ (parsePosix "docs/guide/README.md").2) "setup" ∧
    validateLink envNoIdx [] "a.md" ["repo", "a.md"] "docs/guide/#setup" 1 = ([], []) :=
  ⟨directory_link_redirection.1 (envGuide "## Setup") [] "a.md" ["repo", "a.md"]
      "docs/guide/#setup" 1 ["repo", "docs", "guide"] "docs/guide" "docs/guide/README.md"
      (by decide) (by decide) (by decide) (by decide) (by decide) (by decide) (by decide)
      (by decide) (by decide) (by decide) (by decide) (by decide),
   directory_link_redirection.2.2.2.1 envNoIdx [] "a.md" ["repo", "a.md"]
     "docs/guide/#setup" 1 ["repo", "docs", "guide"] "docs/guide" (by decide) (by decide)
     (by decide) (by decide) (by decide) (by decide) (by decide) (by decide) (by decide)
     (by decide)⟩

theorem extractLinksLoop_fenced (ls : List String) :
    ∀ (n : Nat), (∀ l ∈ ls, isFenceToggle l = false) →
      extractLinksLoop true n ls = some [] := by
  induction ls with
  | nil => intro n _; rfl
  | cons l rest ih =>
    intro n h
    have hl : isFenceToggle l = false := h l (by simp)
    simp only [extractLinksLoop, hl, Bool.false_eq_true, if_false, if_true]
    exact ih (n + 1) (fun x hx => h x (by simp [hx]))

theorem extractLinksLoop_fenced_run (ls : List String) :
    ∀ (n : Nat) (ls' : List String), (∀ l ∈ ls, isFenceToggle l = false) →
      extractLinksLoop true n (ls ++ "```" :: ls') =
        extractLinksLoop false (n + ls.length + 1) ls' := by
  induction ls with
  | nil =>
    intro n ls' _
    have ht : isFenceToggle "```" = true := by decide
    simp only [List.nil_append, extractLinksLoop, ht, if_true, Bool.not_true,
      List.length_nil, Nat.add_zero]
  | cons l rest ih =>
    intro n ls' h
    have hl : isFenceToggle l = false := h l (by simp)
    simp only [List.cons_append, extractLinksLoop, hl, Bool.false_eq_true, if_false,
      if_true, List.length_cons, List.append_eq]
    rw [ih (n + 1) ls' (fun x hx => h x (by simp [hx]))]
    congr 1
    omega

/-- C8: lines inside a fenced block never contribute links while line
numbering still advances through them — a fenced region of `k`
fence-free lines hands the scan to the line after the closing fence with
the line counter advanced by `k + 2`, and a fenced region that never
closes contributes nothing; on non-fenced lines inline code spans are
stripped before matching, so a backticked link is not extracted while a
plain link on the same line still is. -/
theorem fenced_and_inline_code_extraction :
    (∀ (ls : List String) (n : Nat), (∀ l ∈ ls, isFenceToggle l = false) →
      extractLinksLoop true n ls = some []) ∧
    (∀ (ls ls' : List String) (n : Nat), (∀ l ∈ ls, isFenceToggle l = false) →
      extractLinksLoop false n ("```" :: (ls ++ "```" :: ls')) =
        extractLinksLoop false (n + ls.length + 2) ls') ∧
    (∀ (line : String) (n : Nat) (ls : List String), isFenceToggle line = false →
      extractLinksLoop false n (line :: ls) =
        (match seqDests (linkMatchesAux (stripInlineCode line).toList.length
            (stripInlineCode line).toList) with
         | none => none
         | some ds =>
           match extractLinksLoop false (n + 1) ls with
           | none => none
           | some tail => some (ds.map (fun d => (d, n)) ++ tail))) ∧
    extractMarkdownLinks "```\n[a](b.md)\n```\n[e](f.md)" = some [("f.md", 4)] ∧
    extractMarkdownLinks "`[c](d.md)` and [e](f.md)" = some [("f.md", 1)] := by
  refine ⟨extractLinksLoop_fenced, ?_, ?_, by decide, by decide⟩
  · intro ls ls' n h
    have ht : isFenceToggle "```" = true := by decide
    simp only [extractLinksLoop, ht, if_true, Bool.not_false]
    rw [extractLinksLoop_fenced_run ls (n + 1) ls' h]
    congr 1
    omega
  · intro line n ls h
    simp only [extractLinksLoop, h, Bool.false_eq_true, if_false]

/-- C8 witness. -/
theorem fenced_and_inline_code_extraction_witness :
    extractLinksLoop true 1 ["[a](b.md)", "text"] = some [] ∧
    extractLinksLoop false 1 ("```" :: (["[a](b.md)"] ++ "```" :: ["[e](f.md)"])) =
      extractLinksLoop false 4 ["[e](f.md)"] ∧
    extractLinksLoop false 7 ["`[c](d.md)` and [e](f.md)"] =
      (match seqDests (linkMatchesAux
          (stripInlineCode "`[c](d.md)` and [e](f.md)").toList.length
          (stripInlineCode "`[c](d.md)` and [e](f.md)").toList) with
       | none => none
       | some ds =>
         match extractLinksLoop false 8 [] with
         | none => none
         | some tail => some (ds.map (fun d => (d, 7)) ++ tail)) :=
  ⟨fenced_and_inline_code_extraction.1 ["[a](b.md)", "text"] 1 (by decide),
   fenced_and_inline_code_extraction.2.1 ["[a](b.md)"] ["[e](f.md)"] 1 (by decide),
   fenced_and_inline_code_extraction.2.2.1 "`[c](d.md)` and [e](f.md)" 7 [] (by decide)⟩

/-- The anchor set `_anchors_for_file` computes for a path, independent
of the cache state. -/
def canonicalAnchors (e : Env) (file : AbsPath) : List String :=
  match relPath e.root file with
  | none => []
  | some _ =>
    match e.fs file with
    | none => []
    | some content => extractAnchors content

/-- A cache is consistent when every cached entry equals what
recomputation would produce for any path carrying its key. -/
def CacheConsistent (e : Env) (c : AnchorCache) : Prop :=
  ∀ k v, cacheGet c k = some v →
    ∀ file, relPath e.root file = some k → v = canonicalAnchors e file

/-- File contents depend only on the root-relative identity of a path,
as they do on a real directory tree. -/
def Env.FsByRel (e : Env) : Prop :=
  ∀ f f', relPath e.root f = relPath e.root f' → e.fs f = e.fs f'

theorem cacheConsistent_nil (e : Env) : CacheConsistent e [] := by
  intro k v h
  simp [cacheGet, List.find?] at h

theorem cacheGet_insert_eq (c : AnchorCache) (k k' : String) (v : List String) :
    cacheGet (cacheInsert c k v) k' =
      match cacheGet c k' with
      | some w => some w
      | none => if k' = k then some v else none := by
  unfold cacheGet cacheInsert
  rw [List.find?_append]
  cases hf : c.find? (fun p => decide (p.1 = k')) with
  | some p => simp
  | none =>
    by_cases hk : k' = k
    · subst hk
      simp [List.find?]
    · have hd : decide (k = k') = false := decide_eq_false fun h => hk h.symm
      simp [List.find?, hd, hk]

theorem anchorsForFile_fst (e : Env) (c : AnchorCache) (f : AbsPath)
    (hc : CacheConsistent e c) :
    (anchorsForFile e c f).1 = canonicalAnchors e f := by
  unfold anchorsForFile canonicalAnchors
  cases hrel : relPath e.root f with
  | none => rfl
  | some rel =>
    dsimp only
    cases hget : cacheGet c rel with
    | some v =>
      dsimp only
      have hv := hc rel v hget f hrel
      unfold canonicalAnchors at hv
      rw [hrel] at hv
      exact hv
    | none =>
      cases hfsf : e.fs f with
      | none => rfl
      | some ct => rfl

theorem anchorsForFile_consistent (e : Env) (c : AnchorCache) (f : AbsPath)
    (hfs : e.FsByRel) (hc : CacheConsistent e c) :
    CacheConsistent e (anchorsForFile e c f).2 := by
  unfold anchorsForFile
  cases hrel : relPath e.root f with
  | none => exact hc
  | some rel =>
    dsimp only
    cases hget : cacheGet c rel with
    | some v => exact hc
    | none =>
      have hval : ∀ (v : List String), v = canonicalAnchors e f →
          CacheConsistent e (cacheInsert c rel v) := by
        intro v hv k' v' hget' file' hrel'
        rw [cacheGet_insert_eq] at hget'
        cases hg2 : cacheGet c k' with
        | some w =>
          rw [hg2] at hget'
          simp only [Option.some.injEq] at hget'
          subst hget'
          exact hc k' w hg2 file' hrel'
        | none =>
          rw [hg2] at hget'
          by_cases hk : k' = rel
          · rw [if_pos hk] at hget'
            simp only [Option.some.injEq] at hget'
            subst hget'
            subst hk
            rw [hv]
            unfold canonicalAnchors
            rw [hrel, hrel', hfs f file' (by rw [hrel, hrel'])]
          · rw [if_neg hk] at hget'
            exact absurd hget' (by simp)
      cases hfsf : e.fs f with
      | none =>
        dsimp only
        apply hval
        unfold canonicalAnchors
        rw [hrel, hfsf]
      | some ct =>
        dsimp only
        apply hval
        unfold canonicalAnchors
        rw [hrel, hfsf]

/-- The errors `_validate_anchor` produces, cache-free. -/
def validateAnchorErrors (e : Env) (relSource : String) (sourceLine : Nat)
    (link : String) (targetFile : AbsPath) (fragment : String) : List MarkdownLinkError :=
  if ("#" ++ fragment) ∈ canonicalAnchors e targetFile then []
  else [⟨relSource, sourceLine, link,
    "Anchor \"" ++ ("#" ++ fragment) ++ "\" not found in " ++
      (match relPath e.root targetFile with
       | some r => r
       | none => joinPath targetFile)⟩]

theorem validateAnchor_fst (e : Env) (c : AnchorCache) (rs : String) (n : Nat)
    (l : String) (tgt : AbsPath) (fr : String) (hc : CacheConsistent e c) :
    (validateAnchor e c rs n l tgt fr).1 = validateAnchorErrors e rs n l tgt fr := by
  unfold validateAnchor validateAnchorErrors
  dsimp only
  rw [anchorsForFile_fst e c tgt hc]
  by_cases hm : ("#" ++ fr) ∈ canonicalAnchors e tgt <;> simp [hm]

theorem validateAnchor_consistent (e : Env) (c : AnchorCache) (rs : String) (n : Nat)
    (l : String) (tgt : AbsPath) (fr : String) (hfs : e.FsByRel)
    (hc : CacheConsistent e c) :
    CacheConsistent e (validateAnchor e c rs n l tgt fr).2 := by
  have h := anchorsForFile_consistent e c tgt hfs hc
  unfold validateAnchor
  dsimp only
  split <;> exact h

/-- The errors `_validate_link` produces, cache-free. -/
def validateLinkErrors (e : Env) (relSource : String) (sourceFile : AbsPath)
    (url : String) (lineNum : Nat) : List MarkdownLinkError :=
  let parsed := urlsplit url
  if !parsed.scheme.toList.isEmpty || !parsed.netloc.toList.isEmpty then []
  else
    let fragment := pyStrip (unquote parsed.fragment)
    let rawPath := pyStrip (unquote parsed.path)
    if rawPath.toList.isEmpty && !fragment.toList.isEmpty then
      validateAnchorErrors e relSource lineNum url sourceFile fragment
    else if rawPath.toList.isEmpty then []
    else
      match resolveLinkPath e.root sourceFile rawPath with
      | none => [⟨relSource, lineNum, url, "Link resolves outside repository: " ++ rawPath⟩]
      | some resolvedTarget =>
        match relPath e.root resolvedTarget with
        | none =>
          [⟨relSource, lineNum, url, "Target not found in git-tracked paths: " ++ rawPath⟩]
        | some relTarget =>
          if !trackedPathExists e.trackedFiles e.dirs relTarget then
            [⟨relSource, lineNum, url,
              "Target not found in git-tracked paths: " ++ rawPath⟩]
          else
            let targetForAnchor :=
              if isTrackedDir e.dirs relTarget && !decide (relTarget ∈ e.trackedFiles) then
                let readmeRel :=
                  (⟨(relTarget.toList.reverse.dropWhile fun c => c = '/').reverse⟩ : String)
                    ++ "/README.md"
                if decide (readmeRel ∈ e.trackedFiles) then e.root ++ (parsePosix readmeRel).2
                else resolvedTarget
              else resolvedTarget
            if !fragment.toList.isEmpty &&
                decide (pyLower (pathSuffix targetForAnchor) = ".md") then
              validateAnchorErrors e relSource lineNum url targetForAnchor fragment
            else []

theorem validateLink_fst (e : Env) (c : AnchorCache) (rs : String) (src : AbsPath)
    (url : String) (n : Nat) (hc : CacheConsistent e c) :
    (validateLink e c rs src url n).1 = validateLinkErrors e rs src url n := by
  unfold validateLink validateLinkErrors
  dsimp only
  repeat' split
  all_goals first
    | rfl
    | exact validateAnchor_fst e c rs n url _ _ hc

theorem validateLink_consistent (e : Env) (c : AnchorCache) (rs : String) (src : AbsPath)
    (url : String) (n : Nat) (hfs : e.FsByRel) (hc : CacheConsistent e c) :
    CacheConsistent e (validateLink e c rs src url n).2 := by
  unfold validateLink
  dsimp only
  repeat' split
  all_goals first
    | exact validateAnchor_consistent e c rs n url _ _ hfs hc
    | exact hc

/-- The errors the per-link loop of `validate_file` produces, cache-free. -/
def validateLinksErrors (e : Env) (relSource : String) (sourceFile : AbsPath) :
    List (String × Nat) → List MarkdownLinkError
  | [] => []
  | (url, n) :: rest =>
    let u := normalizeLinkDestination url
    if u.toList.isEmpty || shouldIgnoreLink u then
      validateLinksErrors e relSource sourceFile rest
    else
      validateLinkErrors e relSource sourceFile u n ++
        validateLinksErrors e relSource sourceFile rest

theorem validateLinksLoop_spec (e : Env) (rs : String) (src : AbsPath)
    (hfs : e.FsByRel) :
    ∀ (links : List (String × Nat)) (c : AnchorCache), CacheConsistent e c →
      (validateLinksLoop e c rs src links).1 = validateLinksErrors e rs src links ∧
      CacheConsistent e (validateLinksLoop e c rs src links).2 := by
  intro links
  induction links with
  | nil => intro c hc; exact ⟨rfl, hc⟩
  | cons p rest ih =>
    intro c hc
    obtain ⟨url, n⟩ := p
    unfold validateLinksLoop validateLinksErrors
    dsimp only
    split
    · exact ih c hc
    · have h1 := validateLink_fst e c rs src (normalizeLinkDestination url) n hc
      have h2 := validateLink_consistent e c rs src (normalizeLinkDestination url) n hfs hc
      have h3 := ih (validateLink e c rs src (normalizeLinkDestination url) n).2 h2
      exact ⟨by rw [h1, h3.1], h3.2⟩

/-- The value `validate_file` computes, cache-free. -/
def validateFileErrors (e : Env) (file : AbsPath) : Option (List MarkdownLinkError) :=
  match relPath e.root file with
  | none => some []
  | some relSource =>
    match e.fs file with
    | none => some [⟨relSource, 1, "", "Unable to read file"⟩]
    | some content =>
      match extractMarkdownLinks content with
      | none => none
      | some links => some (validateLinksErrors e relSource file links)

theorem validateFile_spec (e : Env) (f : AbsPath) (hfs : e.FsByRel) :
    ∀ (c : AnchorCache), CacheConsistent e c →
      (validateFile e c f).1 = validateFileErrors e f ∧
      CacheConsistent e (validateFile e c f).2 := by
  intro c hc
  unfold validateFile validateFileErrors
  cases hrel : relPath e.root f with
  | none => exact ⟨rfl, hc⟩
  | some rs =>
    dsimp only
    cases hfsf : e.fs f with
    | none => exact ⟨rfl, hc⟩
    | some content =>
      dsimp only
      cases hex : extractMarkdownLinks content with
      | none => exact ⟨rfl, hc⟩
      | some links =>
        dsimp only
        have h := validateLinksLoop_spec e rs f hfs links c hc
        exact ⟨by rw [h.1], h.2⟩

/-- The value `validate_files` computes, cache-free. -/
def validateFilesErrors (e : Env) : List AbsPath → Option (List MarkdownLinkError)
  | [] => some []
  | f :: fs =>
    match validateFileErrors e f with
    | none => none
    | some errs =>
      match validateFilesErrors e fs with
      | none => none
      | some tail => some (errs ++ tail)

theorem validateFilesLoop_spec (e : Env) (hfs : e.FsByRel) :
    ∀ (files : List AbsPath) (c : AnchorCache), CacheConsistent e c →
      (validateFilesLoop e c files).1 = validateFilesErrors e files ∧
      CacheConsistent e (validateFilesLoop e c files).2 := by
  intro files
  induction files with
  | nil => intro c hc; exact ⟨rfl, hc⟩
  | cons f fs ih =>
    intro c hc
    have hf := validateFile_spec e f hfs c hc
    unfold validateFilesLoop validateFilesErrors
    cases hv : validateFile e c f with
    | mk fst snd =>
      rw [hv] at hf
      dsimp only at hf
      cases fst with
      | none =>
        rw [← hf.1]
        exact ⟨rfl, hf.2⟩
      | some errs =>
        dsimp only
        rw [← hf.1]
        dsimp only
        have ht := ih snd hf.2
        cases hv2 : validateFilesLoop e snd fs with
        | mk tfst tsnd =>
          rw [hv2] at ht
          dsimp only at ht
          cases tfst with
          | none =>
            rw [← ht.1]
            exact ⟨rfl, ht.2⟩
          | some tail =>
            rw [← ht.1]
            dsimp only
            exact ⟨rfl, ht.2⟩

theorem pairwise_of_mem {α : Type} {R : α → α → Prop} :
    ∀ (l : List α), (∀ a ∈ l, ∀ b ∈ l, R a b) → l.Pairwise R := by
  intro l
  induction l with
  | nil => intro _; exact List.Pairwise.nil
  | cons a t ih =>
    intro h
    refine List.Pairwise.cons ?_ (ih ?_)
    · intro b hb; exact h a (by simp) b (by simp [hb])
    · intro x hx y hy; exact h x (by simp [hx]) y (by simp [hy])

theorem extractLinksLoop_sorted :
    ∀ (ls : List String) (fence : Bool) (n : Nat) (L : List (String × Nat)),
      extractLinksLoop fence n ls = some L →
      (∀ p ∈ L, n ≤ p.2) ∧ L.Pairwise (fun a b => a.2 ≤ b.2) := by
  intro ls
  induction ls with
  | nil =>
    intro fence n L h
    simp only [extractLinksLoop, Option.some.injEq] at h
    subst h
    exact ⟨by simp, List.Pairwise.nil⟩
  | cons line rest ih =>
    intro fence n L h
    unfold extractLinksLoop at h
    by_cases ht : isFenceToggle line = true
    · rw [if_pos ht] at h
      have hr := ih (!fence) (n + 1) L h
      exact ⟨fun p hp => Nat.le_of_succ_le (hr.1 p hp), hr.2⟩
    · rw [if_neg ht] at h
      by_cases hf : fence = true
      · rw [if_pos hf] at h
        have hr := ih fence (n + 1) L h
        exact ⟨fun p hp => Nat.le_of_succ_le (hr.1 p hp), hr.2⟩
      · rw [if_neg hf] at h
        dsimp only at h
        cases hsd : seqDests (linkMatchesAux (stripInlineCode line).toList.length
            (stripInlineCode line).toList) with
        | none => rw [hsd] at h; exact absurd h (by simp)
        | some ds =>
          rw [hsd] at h
          dsimp only at h
          cases hrec : extractLinksLoop fence (n + 1) rest with
          | none => rw [hrec] at h; exact absurd h (by simp)
          | some tail =>
            rw [hrec] at h
            simp only [Option.some.injEq] at h
            subst h
            have htail := ih fence (n + 1) tail hrec
            constructor
            · intro p hp
              rcases List.mem_append.1 hp with hp1 | hp2
              · rcases List.mem_map.1 hp1 with ⟨d, _, rfl⟩
                exact Nat.le_refl n
              · exact Nat.le_of_succ_le (htail.1 p hp2)
            · rw [List.pairwise_append]
              refine ⟨?_, htail.2, ?_⟩
              · rw [List.pairwise_map]
                exact pairwise_of_mem _ (fun a _ b _ => Nat.le_refl n)
              · intro a ha b hb
                rcases List.mem_map.1 ha with ⟨d, _, rfl⟩
                exact Nat.le_of_succ_le (htail.1 b hb)

theorem validateAnchor_sourceLine (e : Env) (c : AnchorCache) (rs : String) (n : Nat)
    (l : String) (tgt : AbsPath) (fr : String) :
    ∀ err ∈ (validateAnchor e c rs n l tgt fr).1, err.sourceLine = n := by
  intro err herr
  unfold validateAnchor at herr
  dsimp only at herr
  split at herr
  · simp at herr
  · simp only [List.mem_singleton] at herr
    rw [herr]

theorem validateLink_sourceLine (e : Env) (c : AnchorCache) (rs : String) (src : AbsPath)
    (url : String) (n : Nat) :
    ∀ err ∈ (validateLink e c rs src url n).1, err.sourceLine = n := by
  intro err herr
  unfold validateLink at herr
  dsimp only at herr
  repeat' split at herr
  all_goals
    first
      | exact validateAnchor_sourceLine e c rs n url _ _ err herr
      | exact (List.not_mem_nil err herr).elim
      | (have herr2 := List.mem_singleton.1 herr; subst herr2; rfl)

theorem validateLinksLoop_lines (e : Env) (rs : String) (src : AbsPath) :
    ∀ (links : List (String × Nat)) (c : AnchorCache) (err : MarkdownLinkError),
      err ∈ (validateLinksLoop e c rs src links).1 →
      ∃ p ∈ links, err.sourceLine = p.2 := by
  intro links
  induction links with
  | nil => intro c err h; simp [validateLinksLoop] at h
  | cons q rest ih =>
    intro c err h
    obtain ⟨url, n⟩ := q
    unfold validateLinksLoop at h
    dsimp only at h
    split at h
    · obtain ⟨p, hp, he⟩ := ih c err h
      exact ⟨p, by simp [hp], he⟩
    · rcases List.mem_append.1 h with h1 | h2
      · exact ⟨(url, n), by simp, validateLink_sourceLine e c rs src _ n err h1⟩
      · obtain ⟨p, hp, he⟩ := ih _ err h2
        exact ⟨p, by simp [hp], he⟩

theorem validateLinksLoop_sorted (e : Env) (rs : String) (src : AbsPath) :
    ∀ (links : List (String × Nat)) (c : AnchorCache),
      links.Pairwise (fun a b => a.2 ≤ b.2) →
      (validateLinksLoop e c rs src links).1.Pairwise
        (fun a b => a.sourceLine ≤ b.sourceLine) := by
  intro links
  induction links with
  | nil => intro c _; exact List.Pairwise.nil
  | cons q rest ih =>
    intro c hp
    obtain ⟨url, n⟩ := q
    rw [List.pairwise_cons] at hp
    unfold validateLinksLoop
    dsimp only
    split
    · exact ih c hp.2
    · rw [List.pairwise_append]
      refine ⟨?_, ih _ hp.2, ?_⟩
      · apply pairwise_of_mem
        intro a ha b hb
        rw [validateLink_sourceLine e c rs src _ n a ha,
          validateLink_sourceLine e c rs src _ n b hb]
      · intro a ha b hb
        obtain ⟨p, hpmem, hpe⟩ := validateLinksLoop_lines e rs src rest _ b hb
        rw [validateLink_sourceLine e c rs src _ n a ha, hpe]
        exact hp.1 p hpmem

theorem validateFile_sorted (e : Env) (c : AnchorCache) (f : AbsPath) :
    ∀ (errs : List MarkdownLinkError) (c2 : AnchorCache),
      validateFile e c f = (some errs, c2) →
      errs.Pairwise (fun a b => a.sourceLine ≤ b.sourceLine) := by
  intro errs c2 h
  unfold validateFile at h
  cases hrel : relPath e.root f with
  | none =>
    rw [hrel] at h
    simp only [Prod.mk.injEq, Option.some.injEq] at h
    rw [← h.1]
    exact List.Pairwise.nil
  | some rs =>
    rw [hrel] at h
    dsimp only at h
    cases hfsf : e.fs f with
    | none =>
      rw [hfsf] at h
      simp only [Prod.mk.injEq, Option.some.injEq] at h
      rw [← h.1]
      simp
    | some content =>
      rw [hfsf] at h
      dsimp only at h
      cases hex : extractMarkdownLinks content with
      | none => rw [hex] at h; simp at h
      | some links =>
        rw [hex] at h
        dsimp only at h
        simp only [Prod.mk.injEq, Option.some.injEq] at h
        have hsorted : links.Pairwise (fun a b => a.2 ≤ b.2) :=
          (extractLinksLoop_sorted (pySplitlines content) false 1 links hex).2
        rw [← h.1]
        exact validateLinksLoop_sorted e rs f links c hsorted

/-- Any environment whose file contents are looked up by root-relative
path reads the same content for any two paths with the same
root-relative identity. -/
theorem tableFs_byRel (root : AbsPath) (tf : List String) (t : String → Option String) :
    (Env.mk root tf (tableFs root t)).FsByRel := by
  intro f f' h
  show tableFs root t f = tableFs root t f'
  unfold tableFs
  rw [show relPath root f = relPath root f' from h]

/-- Contents of a document repeating the same dead link twice on one
line. -/
def tableDup : String → Option String := fun k =>
  if k = "a.md" then some "[x](#a) [x](#a)" else none

/-- Environment for the duplicate-link document. -/
def envDup : Env :=
  Env.mk ["repo"] ["a.md"] (tableFs ["repo"] tableDup)

/-- C9: over a file system whose contents depend only on root-relative
identity, a validation run computes the cache-free error value, and a
second run over the unchanged document set — reusing the instance's
warmed anchor cache — returns the identical error list; errors
accumulate in supplied-file order (per-file lists concatenated in
order), within one file the error list is sorted by 1-based source
line, and duplicates are preserved, never deduplicated. -/
theorem validation_idempotent_ordered :
    (∀ (e : Env) (files : List AbsPath), e.FsByRel →
      (validateFiles e files).1 = validateFilesErrors e files ∧
      (validateFilesLoop e (validateFiles e files).2 files).1 =
        (validateFiles e files).1) ∧
    (∀ (e : Env) (c : AnchorCache) (f : AbsPath) (errs : List MarkdownLinkError)
        (c2 : AnchorCache), validateFile e c f = (some errs, c2) →
      errs.Pairwise (fun a b => a.sourceLine ≤ b.sourceLine)) ∧
    (∀ (e : Env) (c : AnchorCache) (f : AbsPath) (fs : List AbsPath)
        (errs tail : List MarkdownLinkError) (c2 c3 : AnchorCache),
      validateFile e c f = (some errs, c2) →
      validateFilesLoop e c2 fs = (some tail, c3) →
      validateFilesLoop e c (f :: fs) = (some (errs ++ tail), c3)) ∧
    (validateFile envDup [] ["repo", "a.md"]).1 =
      some [⟨"a.md", 1, "#a", "Anchor \"#a\" not found in a.md"⟩,
        ⟨"a.md", 1, "#a", "Anchor \"#a\" not found in a.md"⟩] := by
  refine ⟨?_, ?_, ?_, by decide⟩
  · intro e files hfs
    have h1 := validateFilesLoop_spec e hfs files [] (cacheConsistent_nil e)
    have h2 := validateFilesLoop_spec e hfs files (validateFiles e files).2 h1.2
    exact ⟨h1.1, by rw [h2.1]; exact h1.1.symm⟩
  · intro e c f errs c2 h
    exact validateFile_sorted e c f errs c2 h
  · intro e c f fs errs tail c2 c3 h1 h2
    unfold validateFilesLoop
    rw [h1]
    dsimp only
    rw [h2]

/-- C9 witness. -/
theorem validation_idempotent_ordered_witness :
    ((validateFiles envA [["repo", "docs", "a.md"]]).1 =
        validateFilesErrors envA [["repo", "docs", "a.md"]] ∧
      (validateFilesLoop envA (validateFiles envA [["repo", "docs", "a.md"]]).2
          [["repo", "docs", "a.md"]]).1 =
        (validateFiles envA [["repo", "docs", "a.md"]]).1) ∧
    [(⟨"a.md", 1, "broken.md#x",
        "Anchor \"#x\" not found in broken.md"⟩ : MarkdownLinkError)].Pairwise
      (fun a b => a.sourceLine ≤ b.sourceLine) ∧
    validateFilesLoop envDup [] [["repo", "a.md"], ["repo", "a.md"]] =
      (some ([⟨"a.md", 1, "#a", "Anchor \"#a\" not found in a.md"⟩,
          ⟨"a.md", 1, "#a", "Anchor \"#a\" not found in a.md"⟩] ++
        [⟨"a.md", 1, "#a", "Anchor \"#a\" not found in a.md"⟩,
          ⟨"a.md", 1, "#a", "Anchor \"#a\" not found in a.md"⟩]),
       cacheInsert [] "a.md" []) :=
  ⟨validation_idempotent_ordered.1 envA [["repo", "docs", "a.md"]]
      (tableFs_byRel ["repo"] ["docs/a.md", "docs/sibling.md"] tableA),
   validation_idempotent_ordered.2.1 envBroken [] ["repo", "a.md"]
     [⟨"a.md", 1, "broken.md#x", "Anchor \"#x\" not found in broken.md"⟩]
     (cacheInsert [] "broken.md" []) (by decide),
   validation_idempotent_ordered.2.2.1 envDup [] ["repo", "a.md"] [["repo", "a.md"]]
     [⟨"a.md", 1, "#a", "Anchor \"#a\" not found in a.md"⟩,
       ⟨"a.md", 1, "#a", "Anchor \"#a\" not found in a.md"⟩]
     [⟨"a.md", 1, "#a", "Anchor \"#a\" not found in a.md"⟩,
       ⟨"a.md", 1, "#a", "Anchor \"#a\" not found in a.md"⟩]
     (cacheInsert [] "a.md" []) (cacheInsert [] "a.md" []) (by decide) (by decide)⟩

end MLV
